import Mathlib

/-!
Verification of the OpenRouter browser-extension data pipeline.

This file gives a shallow embedding, in Lean 4, of the pipeline's core:

* the JavaScript string/number primitives the code relies on
  (parseInt, parseFloat, JSON.parse, String.prototype.split, Date parsing
  of ISO `YYYY-MM-DD` strings, truthiness);
* the range-keyed localStorage cache of `src/extension/modules/api.ts`
  (getTransactionCachedData, getCachedDataByKey, findOverlappingCachedData,
  setTransactionCachedData, clearTransactionCache, enforceCacheLimit,
  clearExpiredCaches);
* the record normalizer/aggregator of
  `src/extension/modules/dataProcessor.ts` (processOpenRouterResponse,
  processJSONData);
* the date-range normalization of the content script
  (triggerAutoRefresh / processAndDisplayResults / analyzeData).

Numbers carried by JSON values are modelled as rationals (every concrete
value appearing here is a small dyadic rational, exactly representable as
an IEEE double, so rational arithmetic agrees with the JavaScript float
arithmetic on all inputs considered). localStorage is modelled as an
insertion-ordered association list of string pairs, with in-place update
on overwrite, which is how browsers enumerate `Object.keys(localStorage)`
for non-integer-like keys. Time is an explicit `now : Nat` parameter
(milliseconds since the epoch, the value of `Date.now()`).
-/

namespace ORX

/-! ### Characters and digit strings -/

def isWsChar (c : Char) : Bool :=
  c.toNat = 32 || c.toNat = 9 || c.toNat = 10 || c.toNat = 13

def isDigitChar (c : Char) : Bool :=
  48 ≤ c.toNat && c.toNat ≤ 57

def digitVal (c : Char) : Nat := c.toNat - '0'.toNat

/-- Value of a (non-empty) list of decimal digit characters. -/
def digitsVal (cs : List Char) : Nat :=
  cs.foldl (fun a c => a * 10 + digitVal c) 0

/-- Decimal digits, fueled so that the kernel can evaluate it (the fuel
`n + 1` always suffices, see `natDigitsAux_spec`). -/
def natDigitsAux : Nat → Nat → List Char
  | 0, _ => []
  | fu + 1, n =>
    if n < 10 then [Char.ofNat (n + 48)]
    else natDigitsAux fu (n / 10) ++ [Char.ofNat (n % 10 + 48)]

/-- Decimal digits of a natural number, most significant first.
Matches the output of JavaScript `Number.prototype.toString` on
non-negative integers. -/
def natDigits (n : Nat) : List Char := natDigitsAux (n + 1) n

def natToString (n : Nat) : String := String.mk (natDigits n)

/-! ### JavaScript parseInt / parseFloat (decimal forms) -/

/-- Strip an optional leading sign; `true` means negative. -/
def signSplit : List Char → Bool × List Char
  | '-' :: rest => (true, rest)
  | '+' :: rest => (false, rest)
  | cs => (false, cs)

/-- `parseInt` on a character list: skip leading whitespace, optional
sign, then the longest run of decimal digits; NaN (`none`) when no digit
follows.  (The hexadecimal `0x` form and non-decimal radixes are not
modelled; the program only ever feeds decimal numerals and free-form
field values to `parseInt`.) -/
def jsParseIntList (cs : List Char) : Option Int :=
  let sc := signSplit (cs.dropWhile isWsChar)
  let ds := sc.2.takeWhile isDigitChar
  if ds.isEmpty then none
  else some ((if sc.1 then -1 else 1) * (digitsVal ds : Int))

def jsParseIntStr (s : String) : Option Int := jsParseIntList s.toList

/-- The rational value `sign * (ip + fp / 10^fpLen) * 10^expo`, built
with `mkRat` over integer arithmetic (the arithmetic of `ℚ` itself is
`@[irreducible]` and would block kernel evaluation; this construction is
value-equal). -/
def floatVal (neg : Bool) (ipVal fpVal fpLen : Nat) (expo : Int) : ℚ :=
  let base : Int := ((ipVal * 10 ^ fpLen + fpVal : Nat) : Int)
  let n : Int := if neg then -base else base
  match expo with
  | .ofNat e => mkRat (n * ((10 ^ e : Nat) : Int)) (10 ^ fpLen)
  | .negSucc e => mkRat n (10 ^ fpLen * 10 ^ (e + 1))

/-- `parseFloat` on a character list: optional sign, integer part,
optional fraction, optional exponent; NaN (`none`) when no digit occurs
before the exponent.  (`Infinity` literals are not modelled.) -/
def jsParseFloatList (cs : List Char) : Option ℚ :=
  let sc := signSplit (cs.dropWhile isWsChar)
  let cs := sc.2
  let ip := cs.takeWhile isDigitChar
  let cs := cs.dropWhile isDigitChar
  let (fp, cs) : List Char × List Char :=
    match cs with
    | '.' :: rest => (rest.takeWhile isDigitChar, rest.dropWhile isDigitChar)
    | _ => ([], cs)
  if ip.isEmpty && fp.isEmpty then none else
  let expo : Int :=
    match cs with
    | 'e' :: rest | 'E' :: rest =>
      let se := signSplit rest
      let eds := se.2.takeWhile isDigitChar
      if eds.isEmpty then 0
      else (if se.1 then -1 else 1) * (digitsVal eds : Int)
    | _ => 0
  some (floatVal sc.1 (digitsVal ip) (digitsVal fp) fp.length expo)

def jsParseFloatStr (s : String) : Option ℚ := jsParseFloatList s.toList

/-! ### JavaScript String.prototype.split with a one-character separator -/

/-- `s.split(sep)` for a single-character separator: always returns a
non-empty list of (possibly empty) segments. -/
def jsSplit (sep : Char) : List Char → List (List Char)
  | [] => [[]]
  | c :: cs =>
    match jsSplit sep cs with
    | [] => [[]]
    | h :: t => if c = sep then [] :: h :: t else (c :: h) :: t

/-- Last segment of `s.split(sep)` (JavaScript `.pop()` on the result,
which is always defined since split never returns an empty array). -/
def lastSplitSeg (sep : Char) (s : String) : String :=
  String.mk ((jsSplit sep s.toList).getLastD [])

/-- `String.prototype.startsWith`, as list prefixing. -/
def strStartsWith (s p : String) : Bool := p.toList.isPrefixOf s.toList

/-- Substring containment, JavaScript `String.prototype.includes`. -/
def hasInfixList : List Char → List Char → Bool
  | hay, nd =>
    if nd.isPrefixOf hay then true
    else
      match hay with
      | [] => false
      | _ :: t => hasInfixList t nd

def strIncludes (hay nd : String) : Bool := hasInfixList hay.toList nd.toList

/-! ### Decimal printing round-trips through parseInt -/

theorem digit_char_facts :
    ∀ d : Nat, d < 10 →
      isDigitChar (Char.ofNat (d + 48)) = true ∧
      digitVal (Char.ofNat (d + 48)) = d := by
  decide

theorem digit_not_ws {c : Char} (hc : isDigitChar c = true) :
    isWsChar c = false := by
  unfold isDigitChar at hc
  unfold isWsChar
  simp only [Bool.and_eq_true, decide_eq_true_eq] at hc
  simp only [Bool.or_eq_false_iff, decide_eq_false_iff_not]
  omega

theorem digit_ne_minus {c : Char} (hc : isDigitChar c = true) : c ≠ '-' := by
  intro h
  subst h
  revert hc
  decide

theorem digit_ne_plus {c : Char} (hc : isDigitChar c = true) : c ≠ '+' := by
  intro h
  subst h
  revert hc
  decide

theorem takeWhile_all {p : Char → Bool} :
    ∀ l : List Char, (∀ c ∈ l, p c = true) → l.takeWhile p = l := by
  intro l h
  induction l with
  | nil => rfl
  | cons a t ih =>
    rw [List.takeWhile_cons, h a (by simp)]
    simp [ih fun c hc => h c (by simp [hc])]

theorem digitsVal_append_single (l : List Char) (c : Char) :
    digitsVal (l ++ [c]) = digitsVal l * 10 + digitVal c := by
  simp [digitsVal, List.foldl_append]

theorem natDigitsAux_spec :
    ∀ fu n, n < fu →
      natDigitsAux fu n ≠ [] ∧
      (∀ c ∈ natDigitsAux fu n, isDigitChar c = true) ∧
      digitsVal (natDigitsAux fu n) = n := by
  intro fu
  induction fu with
  | zero => intro n h; omega
  | succ fu ih =>
    intro n h
    unfold natDigitsAux
    by_cases h10 : n < 10
    · rw [if_pos h10]
      refine ⟨by simp, ?_, ?_⟩
      · intro c hc
        simp only [List.mem_singleton] at hc
        subst hc
        exact (digit_char_facts n h10).1
      · simp [digitsVal, (digit_char_facts n h10).2]
    · rw [if_neg h10]
      have hlt : n / 10 < fu := by
        have hd : n / 10 < n := Nat.div_lt_self (by omega) (by omega)
        omega
      obtain ⟨hne, hdig, hval⟩ := ih (n / 10) hlt
      refine ⟨by simp, ?_, ?_⟩
      · intro c hc
        rcases List.mem_append.mp hc with h1 | h2
        · exact hdig c h1
        · simp only [List.mem_singleton] at h2
          subst h2
          exact (digit_char_facts (n % 10) (Nat.mod_lt _ (by omega))).1
      · rw [digitsVal_append_single, hval,
          (digit_char_facts (n % 10) (Nat.mod_lt _ (by omega))).2]
        omega

theorem natDigits_ne_nil (n : Nat) : natDigits n ≠ [] :=
  (natDigitsAux_spec (n + 1) n (by omega)).1

theorem natDigits_digits (n : Nat) :
    ∀ c ∈ natDigits n, isDigitChar c = true :=
  (natDigitsAux_spec (n + 1) n (by omega)).2.1

theorem natDigits_head_not_ws (n : Nat) :
    ∀ c ∈ natDigits n, isWsChar c = false :=
  fun c hc => digit_not_ws (natDigits_digits n c hc)

theorem digitsVal_natDigits (n : Nat) : digitsVal (natDigits n) = n :=
  (natDigitsAux_spec (n + 1) n (by omega)).2.2

theorem signSplit_of_head_digit {c : Char} (t : List Char)
    (hc : isDigitChar c = true) : signSplit (c :: t) = (false, c :: t) := by
  unfold signSplit
  split
  · next heq =>
    injection heq with h1 _
    exact absurd h1 (digit_ne_minus hc)
  · next heq =>
    injection heq with h1 _
    exact absurd h1 (digit_ne_plus hc)
  · rfl

theorem jsParseIntList_of_digits (cs : List Char) (hne : cs ≠ [])
    (hd : ∀ c ∈ cs, isDigitChar c = true) :
    jsParseIntList cs = some (digitsVal cs : Int) := by
  obtain ⟨c, t, rfl⟩ : ∃ c t, cs = c :: t := by
    cases cs with
    | nil => exact absurd rfl hne
    | cons c t => exact ⟨c, t, rfl⟩
  have hc : isDigitChar c = true := hd c (List.mem_cons_self c t)
  have hcw : isWsChar c = false := digit_not_ws hc
  have hdrop : (c :: t).dropWhile isWsChar = c :: t := by
    simp [List.dropWhile_cons, hcw]
  have htake : (c :: t).takeWhile isDigitChar = c :: t := takeWhile_all _ hd
  unfold jsParseIntList
  rw [hdrop, signSplit_of_head_digit t hc]
  simp [htake, List.isEmpty]

theorem jsParseIntStr_natToString (n : Nat) :
    jsParseIntStr (natToString n) = some (n : Int) := by
  have h1 : (natToString n).toList = natDigits n := rfl
  rw [jsParseIntStr, h1,
    jsParseIntList_of_digits _ (natDigits_ne_nil n) (natDigits_digits n),
    digitsVal_natDigits]

theorem natToString_ne_empty (n : Nat) : natToString n ≠ "" := by
  intro h
  have : (natToString n).toList = natDigits n := rfl
  rw [h] at this
  exact natDigits_ne_nil n this.symm

/-! ### Split lemmas -/

theorem jsSplit_ne_nil (sep : Char) (cs : List Char) : jsSplit sep cs ≠ [] := by
  cases cs with
  | nil => simp [jsSplit]
  | cons c t =>
    unfold jsSplit
    split
    · simp
    · split <;> simp

theorem jsSplit_no_sep (sep : Char) (cs : List Char) (h : sep ∉ cs) :
    jsSplit sep cs = [cs] := by
  induction cs with
  | nil => rfl
  | cons c t ih =>
    have hct : sep ∉ t := fun hm => h (List.mem_cons_of_mem c hm)
    have hcs : c ≠ sep := fun he => h (he ▸ List.mem_cons_self c t)
    unfold jsSplit
    rw [ih hct]
    simp [hcs]

theorem jsSplit_append_sep (sep : Char) (a b : List Char) :
    jsSplit sep (a ++ sep :: b) = jsSplit sep a ++ jsSplit sep b := by
  induction a with
  | nil =>
    obtain ⟨h, t, heq⟩ : ∃ h t, jsSplit sep b = h :: t := by
      cases hb : jsSplit sep b with
      | nil => exact absurd hb (jsSplit_ne_nil sep b)
      | cons h t => exact ⟨h, t, rfl⟩
    show jsSplit sep (sep :: b) = jsSplit sep [] ++ jsSplit sep b
    conv_lhs => rw [jsSplit]
    rw [heq]
    simp [jsSplit]
  | cons x a' ih =>
    obtain ⟨h, t, heq⟩ : ∃ h t, jsSplit sep a' = h :: t := by
      cases ha : jsSplit sep a' with
      | nil => exact absurd ha (jsSplit_ne_nil sep a')
      | cons h t => exact ⟨h, t, rfl⟩
    show jsSplit sep (x :: (a' ++ sep :: b)) = jsSplit sep (x :: a') ++ jsSplit sep b
    conv_lhs => rw [jsSplit]
    conv_rhs => rw [jsSplit]
    rw [ih, heq]
    by_cases hx : x = sep <;> simp [hx]

theorem getLastD_append_of_ne_nil {α : Type} (l1 : List α) :
    ∀ (l2 : List α), l2 ≠ [] → ∀ d, (l1 ++ l2).getLastD d = l2.getLastD d := by
  induction l1 with
  | nil => intro l2 _ d; rfl
  | cons x l1' ih =>
    intro l2 h2 d
    rw [List.cons_append, List.getLastD_cons, ih l2 h2]
    cases l2 with
    | nil => exact absurd rfl h2
    | cons z zs => rw [List.getLastD_cons, List.getLastD_cons]

theorem lastSeg_append_sep (sep : Char) (a b : List Char) :
    ((jsSplit sep (a ++ sep :: b)).getLastD []) =
      ((jsSplit sep b).getLastD []) := by
  rw [jsSplit_append_sep]
  exact getLastD_append_of_ne_nil _ _ (jsSplit_ne_nil sep b) []

theorem lastSeg_no_sep (sep : Char) (cs : List Char) (h : sep ∉ cs) :
    ((jsSplit sep cs).getLastD []) = cs := by
  rw [jsSplit_no_sep sep cs h]
  rfl

/-! ### JSON values and JSON.parse -/

/-- The result of `JSON.parse`: null, booleans, numbers (as exact
rationals), strings, arrays, and objects (insertion-ordered association
lists). -/
inductive JValue : Type where
  | null : JValue
  | bool : Bool → JValue
  | num : ℚ → JValue
  | str : String → JValue
  | arr : List JValue → JValue
  | obj : List (String × JValue) → JValue

def isHexChar (c : Char) : Bool :=
  (48 ≤ c.toNat && c.toNat ≤ 57) ||
  (97 ≤ c.toNat && c.toNat ≤ 102) ||
  (65 ≤ c.toNat && c.toNat ≤ 70)

def hexDigitVal (c : Char) : Nat :=
  if c.toNat ≤ 57 then c.toNat - 48
  else if c.toNat ≤ 70 then c.toNat - 55
  else c.toNat - 87

def escMap (c : Char) : Option Char :=
  if c = '"' then some '"'
  else if c = '\\' then some '\\'
  else if c = '/' then some '/'
  else if c = 'b' then some (Char.ofNat 8)
  else if c = 'f' then some (Char.ofNat 12)
  else if c = 'n' then some (Char.ofNat 10)
  else if c = 'r' then some (Char.ofNat 13)
  else if c = 't' then some (Char.ofNat 9)
  else none

/-- Body of a JSON string literal, after the opening quote. -/
def pStrBody : Nat → List Char → Option (List Char × List Char)
  | 0, _ => none
  | fu + 1, cs =>
    match cs with
    | [] => none
    | '"' :: rest => some ([], rest)
    | '\\' :: rest =>
      match rest with
      | 'u' :: h1 :: h2 :: h3 :: h4 :: r2 =>
        if isHexChar h1 && isHexChar h2 && isHexChar h3 && isHexChar h4 then
          (pStrBody fu r2).map fun p =>
            (Char.ofNat
              (((hexDigitVal h1 * 16 + hexDigitVal h2) * 16 +
                hexDigitVal h3) * 16 + hexDigitVal h4) :: p.1, p.2)
        else none
      | c :: r2 =>
        (escMap c).bind fun e =>
          (pStrBody fu r2).map fun p => (e :: p.1, p.2)
      | [] => none
    | c :: rest =>
      if c.toNat < 32 then none
      else (pStrBody fu rest).map fun p => (c :: p.1, p.2)

/-- A JSON number (strict grammar: no leading zeros, no leading `+`,
fraction and exponent digits mandatory when the marker is present). -/
def pNumber (cs : List Char) : Option (ℚ × List Char) :=
  let (neg, cs) : Bool × List Char :=
    match cs with
    | '-' :: rest => (true, rest)
    | _ => (false, cs)
  let ipOpt : Option (List Char × List Char) :=
    match cs with
    | '0' :: rest => some (['0'], rest)
    | _ =>
      let ds := cs.takeWhile isDigitChar
      if ds.isEmpty then none else some (ds, cs.dropWhile isDigitChar)
  match ipOpt with
  | none => none
  | some (ip, cs) =>
    let fpOpt : Option (List Char × List Char) :=
      match cs with
      | '.' :: rest =>
        let fs := rest.takeWhile isDigitChar
        if fs.isEmpty then none else some (fs, rest.dropWhile isDigitChar)
      | _ => some ([], cs)
    match fpOpt with
    | none => none
    | some (fp, cs) =>
      let expOpt : Option (Int × List Char) :=
        match cs with
        | 'e' :: rest | 'E' :: rest =>
          let se := signSplit rest
          let eds := se.2.takeWhile isDigitChar
          if eds.isEmpty then none
          else
            some ((if se.1 then -1 else 1) * (digitsVal eds : Int),
              se.2.dropWhile isDigitChar)
        | _ => some (0, cs)
      match expOpt with
      | none => none
      | some (ex, cs) =>
        some (floatVal neg (digitsVal ip) (digitsVal fp) fp.length ex, cs)

mutual

/-- One JSON value, leading whitespace allowed. -/
def pVal : Nat → List Char → Option (JValue × List Char)
  | 0, _ => none
  | fu + 1, cs =>
    let cs := cs.dropWhile isWsChar
    match cs with
    | 'n' :: 'u' :: 'l' :: 'l' :: rest => some (.null, rest)
    | 't' :: 'r' :: 'u' :: 'e' :: rest => some (.bool true, rest)
    | 'f' :: 'a' :: 'l' :: 's' :: 'e' :: rest => some (.bool false, rest)
    | '"' :: rest =>
      (pStrBody (rest.length + 1) rest).map fun p =>
        (.str (String.mk p.1), p.2)
    | '[' :: rest =>
      (pArr fu rest).map fun p => (.arr p.1, p.2)
    | '{' :: rest =>
      (pObj fu rest).map fun p => (.obj p.1, p.2)
    | _ => (pNumber cs).map fun p => (.num p.1, p.2)

/-- Array body, after the opening bracket. -/
def pArr : Nat → List Char → Option (List JValue × List Char)
  | 0, _ => none
  | fu + 1, cs =>
    let cs1 := cs.dropWhile isWsChar
    match cs1 with
    | ']' :: rest => some ([], rest)
    | _ => pItems fu cs1

/-- One or more comma-separated array items. -/
def pItems : Nat → List Char → Option (List JValue × List Char)
  | 0, _ => none
  | fu + 1, cs =>
    match pVal fu cs with
    | none => none
    | some (v, r) =>
      match r.dropWhile isWsChar with
      | ',' :: r2 =>
        (pItems fu r2).map fun p => (v :: p.1, p.2)
      | ']' :: r2 => some ([v], r2)
      | _ => none

/-- Object body, after the opening brace. -/
def pObj : Nat → List Char → Option (List (String × JValue) × List Char)
  | 0, _ => none
  | fu + 1, cs =>
    let cs1 := cs.dropWhile isWsChar
    match cs1 with
    | '}' :: rest => some ([], rest)
    | _ => pPairs fu cs1

/-- One or more comma-separated `"key": value` members. -/
def pPairs : Nat → List Char → Option (List (String × JValue) × List Char)
  | 0, _ => none
  | fu + 1, cs =>
    match cs.dropWhile isWsChar with
    | '"' :: rest =>
      match pStrBody (rest.length + 1) rest with
      | none => none
      | some (k, r1) =>
        match r1.dropWhile isWsChar with
        | ':' :: r2 =>
          match pVal fu r2 with
          | none => none
          | some (v, r3) =>
            match r3.dropWhile isWsChar with
            | ',' :: r4 =>
              (pPairs fu r4).map fun p =>
                ((String.mk k, v) :: p.1, p.2)
            | '}' :: r4 => some ([(String.mk k, v)], r4)
            | _ => none
        | _ => none
    | _ => none

end

/-- `JSON.parse`: parse the whole input as a single JSON value; `none`
models a thrown `SyntaxError`. -/
def parseJSON (s : String) : Option JValue :=
  let cs := s.toList
  match pVal (2 * cs.length + 2) cs with
  | some (v, rest) => if (rest.dropWhile isWsChar).isEmpty then some v else none
  | none => none

/-! ### JavaScript value helpers -/

/-- JavaScript truthiness of a JSON value. -/
def truthy : JValue → Bool
  | .null => false
  | .bool b => b
  | .num q => q ≠ 0
  | .str s => s ≠ ""
  | .arr _ => true
  | .obj _ => true

/-- Property access `v[k]`: `none` models `undefined` (also the result on
primitives, which have none of the fields probed here); `some .null` is a
present `null`. -/
def jfield (v : JValue) (k : String) : Option JValue :=
  match v with
  | .obj l => l.lookup k
  | _ => none

/-- `v.a || v.b || ... ` over a list of field names: the first present and
truthy field value. -/
def firstTruthyField (v : JValue) : List String → Option JValue
  | [] => none
  | k :: ks =>
    match jfield v k with
    | some x => if truthy x then some x else firstTruthyField v ks
    | none => firstTruthyField v ks

/-- `parseFloat(x)` on a JSON value: numbers pass through, strings are
parsed; other values coerce to strings that do not parse (`NaN`), except
for exotic array coercions that the pipeline never hits. -/
def jsParseFloatVal : JValue → Option ℚ
  | .num q => some q
  | .str s => jsParseFloatStr s
  | _ => none

/-- `parseInt(x)` on a JSON value: numbers truncate toward zero, strings
are parsed; other values give `NaN`. -/
def jsParseIntVal : JValue → Option Int
  | .num q => some (q.num / (q.den : Int))
  | .str s => jsParseIntStr s
  | _ => none

/-! ### Calendar dates: `new Date("YYYY-MM-DD")` -/

def isLeapYear (y : Int) : Bool :=
  (Int.emod y 4 = 0 && Int.emod y 100 ≠ 0) || Int.emod y 400 = 0

def daysInMonth (y m : Int) : Int :=
  if m = 2 then (if isLeapYear y then 29 else 28)
  else if m = 4 ∨ m = 6 ∨ m = 9 ∨ m = 11 then 30
  else 31

/-- Days from the civil epoch 1970-01-01 (standard civil-calendar
conversion). -/
def daysFromCivil (y m d : Int) : Int :=
  let y' := if m ≤ 2 then y - 1 else y
  let era := Int.fdiv y' 400
  let yoe := y' - era * 400
  let mp := Int.emod (m + 9) 12
  let doy := Int.fdiv (153 * mp + 2) 5 + d - 1
  let doe := yoe * 365 + Int.fdiv yoe 4 - Int.fdiv yoe 100 + doy
  era * 146097 + doe - 719468

/-- `new Date(s).getTime()` for the date-only ISO form `YYYY-MM-DD`
(UTC midnight, in milliseconds); `none` is an Invalid Date.  This is the
only string form the pipeline produces and compares (query parameters,
date inputs, `toISOString().split('T')[0]`, and cache-key fragments). -/
def isoDateMs (s : String) : Option Int :=
  match s.toList with
  | [y1, y2, y3, y4, '-', m1, m2, '-', d1, d2] =>
    if [y1, y2, y3, y4, m1, m2, d1, d2].all isDigitChar then
      let y : Int := (digitsVal [y1, y2, y3, y4] : Int)
      let m : Int := (digitsVal [m1, m2] : Int)
      let d : Int := (digitsVal [d1, d2] : Int)
      if 1 ≤ m ∧ m ≤ 12 ∧ 1 ≤ d ∧ d ≤ daysInMonth y m then
        some (daysFromCivil y m d * 86400000)
      else none
    else none
  | _ => none

/-- `new Date(x).getTime()` for a JSON value reached through the date
field chain (only truthy values reach it): ISO date strings parse,
numbers are epoch milliseconds, anything else is an Invalid Date. -/
def jsDateVal : JValue → Option Int
  | .str s => isoDateMs s
  | .num q => some (q.num / (q.den : Int))
  | _ => none

/-! ### Record normalizer / aggregator (dataProcessor.ts) -/

/-- `ProcessingResult` of dataProcessor.ts.  The two `Record<string,
number>` objects are insertion-ordered association lists, as JavaScript
enumerates them. -/
structure ProcessingResult where
  costs : List (String × ℚ)
  tokens : List (String × Int)
  totalTokens : Int
deriving DecidableEq

def zeroResult : ProcessingResult := ⟨[], [], 0⟩

/-- `qadd a b = a + b` on `ℚ`, spelled out through `mkRat` so that the
kernel can evaluate it (`Rat.add` itself is `@[irreducible]`); see
`qadd_eq_add`. -/
def qadd (a b : ℚ) : ℚ :=
  mkRat (a.num * b.den + b.num * a.den) (a.den * b.den)

theorem qadd_eq_add (a b : ℚ) : qadd a b = a + b := (Rat.add_def' a b).symm

/-- `m[k] = (m[k] || 0) + x` on a JavaScript object: update in place, or
append a new key; `add`/`z` are the addition and zero of the value
type. -/
def bumpBy {α : Type} (add : α → α → α) (z : α) :
    List (String × α) → String → α → List (String × α)
  | [], k, x => [(k, add z x)]
  | (k', v) :: rest, k, x =>
    if k' = k then (k', add v x) :: rest
    else (k', v) :: bumpBy add z rest k x

/-- Transaction-array extraction of processJSONData: `data` array field,
nested `data.data` array field, or the payload itself an array. -/
def findTransactions (j : JValue) : Option (List JValue) :=
  match jfield j "data" with
  | some (.arr l) => some l
  | some d =>
    match jfield d "data" with
    | some (.arr l) => some l
    | _ => match j with | .arr l => some l | _ => none
  | none => match j with | .arr l => some l | _ => none

def txDateFieldNames : List String := ["date", "timestamp", "created_at", "createdAt"]

/-- The filter callback of processJSONData: extract
`date || timestamp || created_at || createdAt`, include when no truthy
date or an unparseable date is found, exclude when the date is strictly
before `fromDate` or strictly after `toDate`. -/
def keepTransaction (fd td : Option Int) (t : JValue) : Bool :=
  match firstTruthyField t txDateFieldNames with
  | none => true
  | some v =>
    match jsDateVal v with
    | none => true
    | some d =>
      if (match fd with | some f => decide (d < f) | none => false) then false
      else if (match td with | some tt => decide (tt < d) | none => false) then false
      else true

def modelFieldNames : List String :=
  ["model_permaslug", "model", "model_slug", "model_name", "slug"]

/-- `t.model_permaslug || t.model || t.model_slug || t.model_name ||
t.slug || 'unknown'`. -/
def modelOf (t : JValue) : JValue :=
  (firstTruthyField t modelFieldNames).getD (.str "unknown")

def isUnknownModel : JValue → Bool
  | .str s => s = "unknown"
  | _ => false

def costFieldNames : List String := ["usage", "cost", "total_cost", "amount", "price"]

/-- First cost field that is `!== undefined && !== null`. -/
def firstPresentNonNull (t : JValue) : List String → Option JValue
  | [] => none
  | k :: ks =>
    match jfield t k with
    | some .null => firstPresentNonNull t ks
    | some v => some v
    | none => firstPresentNonNull t ks

/-- The cost extracted from a transaction: `parseFloat` of the first
present non-null cost field, `0` when no field is present, `none` when
the parse gives NaN. -/
def costOf (t : JValue) : Option ℚ :=
  match firstPresentNonNull t costFieldNames with
  | none => some 0
  | some v => jsParseFloatVal v

/-- Prompt-side tokens: first field that is `!== undefined`, with
`parseInt(x) || 0`. -/
def promptTokensOf (t : JValue) : Int :=
  match jfield t "prompt_tokens" with
  | some v => (jsParseIntVal v).getD 0
  | none =>
    match jfield t "tokens" with
    | some v => (jsParseIntVal v).getD 0
    | none =>
      match jfield t "input_tokens" with
      | some v => (jsParseIntVal v).getD 0
      | none => 0

def completionTokensOf (t : JValue) : Int :=
  match jfield t "completion_tokens" with
  | some v => (jsParseIntVal v).getD 0
  | none =>
    match jfield t "output_tokens" with
    | some v => (jsParseIntVal v).getD 0
    | none => 0

/-- `String.prototype.trim`: strip leading and trailing whitespace. -/
def jsTrim (s : String) : String :=
  String.mk (((s.toList.dropWhile isWsChar).reverse.dropWhile isWsChar).reverse)

/-- `model.split('/').pop()?.trim() || model`. -/
def modelKeyOf (s : String) : String :=
  let k := jsTrim (String.mk ((jsSplit '/' s.toList).getLastD []))
  if k = "" then s else k

structure AggAcc where
  costs : List (String × ℚ)
  toks : List (String × Int)
  totalTokens : Int
  processed : Nat
  skipped : Nat

/-- The body of the per-transaction loop of processJSONData.  A
non-string truthy model value would raise a `TypeError` at
`model.split`, caught by the per-transaction handler and counted as
skipped. -/
def stepTransaction (acc : AggAcc) (t : JValue) : AggAcc :=
  let model := modelOf t
  let tokensT : Int := promptTokensOf t + completionTokensOf t
  if !truthy model || isUnknownModel model then
    { acc with skipped := acc.skipped + 1 }
  else
    match costOf t with
    | none => { acc with skipped := acc.skipped + 1 }
    | some cost =>
      match model with
      | .str s =>
        let modelKey := modelKeyOf s
        if 0 < cost ∨ 0 < tokensT then
          { acc with
              costs := bumpBy qadd 0 acc.costs modelKey cost
              toks := bumpBy (· + ·) 0 acc.toks modelKey tokensT
              totalTokens := acc.totalTokens + tokensT
              processed := acc.processed + 1 }
        else { acc with processed := acc.processed + 1 }
      | _ => { acc with skipped := acc.skipped + 1 }

/-- processJSONData: extract a transaction array, filter by date range
when at least one bound is supplied, and fold the records into per-model
totals. -/
def processJSONData (j : JValue) (fd td : Option Int) : ProcessingResult :=
  match findTransactions j with
  | none => zeroResult
  | some ts =>
    if ts.isEmpty then zeroResult
    else
      let filtered :=
        if fd.isSome || td.isSome then ts.filter (keepTransaction fd td) else ts
      let acc := filtered.foldl stepTransaction ⟨[], [], 0, 0, 0⟩
      ⟨acc.costs, acc.toks, acc.totalTokens⟩

/-- The argument of processOpenRouterResponse: either a raw string or an
already-parsed value. -/
inductive RawInput : Type where
  | str : String → RawInput
  | val : JValue → RawInput

/-- The string path of processOpenRouterResponse: an empty string or a
parse failure raises, is caught by the surrounding handler, and yields
the zero result. -/
def processStringInput (s : String) (fd td : Option Int) : ProcessingResult :=
  if s = "" then zeroResult
  else
    match parseJSON s with
    | none => zeroResult
    | some j => processJSONData j fd td

/-- processOpenRouterResponse: objects (and arrays) go straight to
processJSONData, strings are parsed as JSON, anything else raises and is
caught, yielding the zero result.  The embedding is total: the source
wraps the whole body in a catch-all that returns the zero result. -/
def processOpenRouterResponse (input : RawInput) (fd td : Option Int) :
    ProcessingResult :=
  match input with
  | .val (.obj l) => processJSONData (.obj l) fd td
  | .val (.arr l) => processJSONData (.arr l) fd td
  | .val (.str s) => processStringInput s fd td
  | .val _ => zeroResult
  | .str s => processStringInput s fd td

/-! ### Range-keyed localStorage cache (api.ts) -/

/-- localStorage: an insertion-ordered association list; `setItem` on an
existing key updates in place, on a fresh key appends. -/
abbrev Store : Type := List (String × String)

def lookupKey (st : Store) (k : String) : Option String := st.lookup k

def setItem : Store → String → String → Store
  | [], k, v => [(k, v)]
  | (k', v') :: rest, k, v =>
    if k' = k then (k, v) :: rest else (k', v') :: setItem rest k v

def removeItem : Store → String → Store
  | [], _ => []
  | (k', v') :: rest, k =>
    if k' = k then removeItem rest k else (k', v') :: removeItem rest k

def TRANSACTION_CACHE_DURATION : Nat := 15 * 60 * 1000
def MAX_CACHE_ENTRIES : Nat := 10
def CACHE_VERSION : String := "v2"
def cacheKeyHead : String := "openrouter_transaction_cache_"
def expiryKeyHead : String := "openrouter_transaction_expiry_"
def testStorageKey : String := "__storage_test__"

/-- getDateRangeKey: fall back to the current calendar month (supplied
here as `defF`/`defT`, the strings the surrounding code computes from
`new Date()`) when either boundary is absent or empty. -/
def getDateRangeKey (f t : Option String) (defF defT : String) : String :=
  match f, t with
  | some fs, some ts =>
    if fs = "" ∨ ts = "" then defF ++ "_to_" ++ defT
    else fs ++ "_to_" ++ ts
  | _, _ => defF ++ "_to_" ++ defT

def getTransactionCacheKey (f t : Option String) (defF defT : String) : String :=
  cacheKeyHead ++ CACHE_VERSION ++ "_" ++ getDateRangeKey f t defF defT

/-- The expiry key derived from a cache key:
`TRANSACTION_CACHE_EXPIRY_PREFIX + CACHE_VERSION + '_' +
cacheKey.split('_').pop()`. -/
def expiryKeyOf (cacheKey : String) : String :=
  expiryKeyHead ++ CACHE_VERSION ++ "_" ++ lastSplitSeg '_' cacheKey

/-- clearTransactionCache: remove the data key and its derived expiry
key. -/
def clearTransactionCache (st : Store) (cacheKey : String) : Store :=
  removeItem (removeItem st cacheKey) (expiryKeyOf cacheKey)

/-- getCachedDataByKey: a missing, empty or past expiry record is a miss
(cleaning the entry up); a payload that does not parse as JSON is
discarded as corrupt; an unparseable non-empty expiry record compares as
NaN and so does NOT count as expired. -/
def getCachedDataByKey (now : Nat) (st : Store) (cacheKey : String) :
    Option String × Store :=
  let expired : Bool :=
    match lookupKey st (expiryKeyOf cacheKey) with
    | none => true
    | some e =>
      if e = "" then true
      else
        match jsParseIntStr e with
        | none => false
        | some n => decide (n < (now : Int))
  if expired then (none, clearTransactionCache st cacheKey)
  else
    match lookupKey st cacheKey with
    | none => (none, st)
    | some d =>
      if d = "" then (none, st)
      else if (parseJSON d).isSome then (some d, st)
      else (none, clearTransactionCache st cacheKey)

def isIsoDateShape (l : List Char) : Bool :=
  match l with
  | [a, b, c, d, '-', e, f, '-', g, h] =>
    [a, b, c, d, e, f, g, h].all isDigitChar
  | _ => false

/-- The key regex of findOverlappingCachedData:
`_(\d{4}-\d{2}-\d{2})_to_(\d{4}-\d{2}-\d{2})$`. -/
def matchRangeSuffix (key : String) : Option (String × String) :=
  let cs := key.toList
  if cs.length < 25 then none
  else
    match cs.drop (cs.length - 25) with
    | '_' :: rest =>
      let d1 := rest.take 10
      match rest.drop 10 with
      | '_' :: 't' :: 'o' :: '_' :: d2 =>
        if isIsoDateShape d1 && isIsoDateShape d2 then
          some (String.mk d1, String.mk d2)
        else none
      | _ => none
    | _ => none

/-- `a >= b` on Date values, false when either is NaN. -/
def dateGe : Option Int → Option Int → Bool
  | some a, some b => decide (b ≤ a)
  | _, _ => false

/-- `a <= b` on Date values, false when either is NaN. -/
def dateLe : Option Int → Option Int → Bool
  | some a, some b => decide (a ≤ b)
  | _, _ => false

/-- doesCacheCoverRange.  A requested boundary is `none` when the
argument string was absent or empty (`fromDate ? new Date(fromDate) :
null`), and `some none` when present but an Invalid Date. -/
def doesCacheCoverRange (cacheFrom cacheTo : Option Int)
    (rf rt : Option (Option Int)) : Bool :=
  match rf, rt with
  | none, none => true
  | some f, none => dateGe f cacheFrom && dateLe f cacheTo
  | none, some t => dateGe t cacheFrom && dateLe t cacheTo
  | some f, some t => dateGe f cacheFrom && dateLe t cacheTo

def reqDate : Option String → Option (Option Int)
  | some s => if s = "" then none else some (isoDateMs s)
  | none => none

/-- The scan loop of findOverlappingCachedData: walk the store in key
order; a key with the cache head and a well-formed range suffix whose
range covers the request yields its (truthy) payload.  No expiry or JSON
validation happens on this path. -/
def overlapScan (rf rt : Option (Option Int)) : Store → Option String
  | [] => none
  | (k, v) :: rest =>
    if strStartsWith k cacheKeyHead then
      match matchRangeSuffix k with
      | some (d1, d2) =>
        if doesCacheCoverRange (isoDateMs d1) (isoDateMs d2) rf rt then
          if v = "" then overlapScan rf rt rest else some v
        else overlapScan rf rt rest
      | none => overlapScan rf rt rest
    else overlapScan rf rt rest

def findOverlappingCachedData (f t : Option String) (st : Store) :
    Option String :=
  overlapScan (reqDate f) (reqDate t) st

/-- getTransactionCachedData: exact key match first, then the
overlap-covering scan. -/
def getTransactionCachedData (now : Nat) (f t : Option String)
    (defF defT : String) (st : Store) : Option String × Store :=
  match getCachedDataByKey now st (getTransactionCacheKey f t defF defT) with
  | (some d, st') => (some d, st')
  | (none, st') => (findOverlappingCachedData f t st', st')

def isLimitCacheKey (k : String) : Bool :=
  strStartsWith k cacheKeyHead && strIncludes k CACHE_VERSION

/-- `parseInt(localStorage.getItem(expiryKey) || '0')` of
enforceCacheLimit.  (An unparseable non-empty record would give NaN and
engine-dependent sort behavior; it is modelled as 0, and the program
itself only ever writes decimal numerals here.) -/
def effTimestamp (st : Store) (k : String) : Int :=
  let e := (lookupKey st (expiryKeyOf k)).getD ""
  let e := if e = "" then "0" else e
  (jsParseIntStr e).getD 0

def insertByTs (x : String × Int) : List (String × Int) → List (String × Int)
  | [] => [x]
  | y :: ys => if x.2 < y.2 then x :: y :: ys else y :: insertByTs x ys

/-- Stable ascending sort by timestamp (`sort((a, b) => a.timestamp -
b.timestamp)`). -/
def sortByTs (l : List (String × Int)) : List (String × Int) :=
  l.foldl (fun acc x => insertByTs x acc) []

/-- enforceCacheLimit: when at least MAX_CACHE_ENTRIES version-tagged
range keys exist, remove the oldest-by-expiry until one below the
maximum. -/
def enforceCacheLimit (st : Store) : Store :=
  let cacheKeys := (st.map Prod.fst).filter isLimitCacheKey
  if MAX_CACHE_ENTRIES ≤ cacheKeys.length then
    let entries := sortByTs (cacheKeys.map fun k => (k, effTimestamp st k))
    let toRemove := entries.take (cacheKeys.length - MAX_CACHE_ENTRIES + 1)
    toRemove.foldl (fun s e => clearTransactionCache s e.1) st
  else st

/-- `key.replace(old, new)` under a `key.startsWith(old)` guard. -/
def replaceHead (k old new : String) : String :=
  if strStartsWith k old then
    new ++ String.mk (k.toList.drop old.toList.length)
  else k

/-- clearExpiredCaches: over a snapshot of the keys, remove the entry
behind every expiry record that parses to a past timestamp.  (The data
key is reconstructed by a prefix replacement on the expiry key, which
holds only the range's end date, so the reconstructed key usually names
no stored payload.) -/
def clearExpiredCaches (now : Nat) (st : Store) : Store :=
  (st.map Prod.fst).foldl
    (fun s key =>
      if strStartsWith key expiryKeyHead then
        match lookupKey s key with
        | some e =>
          if e ≠ "" &&
              (match jsParseIntStr e with
               | some n => decide (n < (now : Int))
               | none => false) then
            clearTransactionCache s (replaceHead key expiryKeyHead cacheKeyHead)
          else s
        | none => s
      else s)
    st

/-- Which `setItem` calls throw `QuotaExceededError`, as a function of
the store contents and the written pair; an environment parameter of the
model. -/
def QuotaPolicy : Type := Store → String → String → Bool

def setItemQ (q : QuotaPolicy) (st : Store) (k v : String) : Option Store :=
  if q st k v then none else some (setItem st k v)

/-- setTransactionCachedData.  The function first probes the quota with
a tiny test write; a `QuotaExceededError` from the probe reaches the
outer catch, which runs clearExpiredCaches and retries the two writes
once.  A failure of the actual data/expiry writes, however, is caught by
the inner handler, which logs and returns with no cleanup and no retry.
All failures are swallowed; the embedding is total. -/
def setTransactionCachedData (q : QuotaPolicy) (now : Nat)
    (f t : Option String) (defF defT : String) (data : String)
    (st : Store) : Store :=
  let ck := getTransactionCacheKey f t defF defT
  let ek := expiryKeyOf ck
  let expiryStr := natToString (now + TRANSACTION_CACHE_DURATION)
  match setItemQ q st testStorageKey "test" with
  | none =>
    let st' := clearExpiredCaches now st
    match setItemQ q st' ck data with
    | none => st'
    | some st1 =>
      match setItemQ q st1 ek expiryStr with
      | none => st1
      | some st2 => enforceCacheLimit st2
  | some st0 =>
    let st1 := removeItem st0 testStorageKey
    match setItemQ q st1 ck data with
    | none => st1
    | some st2 =>
      match setItemQ q st2 ek expiryStr with
      | none => st2
      | some st3 => enforceCacheLimit st3

/-- The quota policy under which every write succeeds. -/
def noQuota : QuotaPolicy := fun _ _ _ => false

/-! ### Date-range normalization (content script) -/

/-- The normalization block repeated in triggerAutoRefresh,
processAndDisplayResults and analyzeData: clamp a future `to` to today's
date string, then pull `from` back to `to` when it lies after it.
`endOfToday` is the millisecond value of today at 23:59:59.999 and
`todayStr` is `today.toISOString().split('T')[0]`.  An unparseable
boundary compares as NaN, so both conditionals are skipped for it. -/
def normalizeDateRange (fromDate toDate : String) (endOfToday : Int)
    (todayStr : String) : String × String :=
  let toDate' :=
    match isoDateMs toDate with
    | some t => if endOfToday < t then todayStr else toDate
    | none => toDate
  let fromDate' :=
    match isoDateMs fromDate, isoDateMs toDate' with
    | some f, some t => if t < f then toDate' else fromDate
    | _, _ => fromDate
  (fromDate', toDate')

/-! ### Store helper lemmas -/

theorem toList_append (a b : String) :
    (a ++ b).toList = a.toList ++ b.toList := by
  cases a
  cases b
  simp [String.toList, String.append]

theorem lookup_setItem_self (st : Store) (k v : String) :
    lookupKey (setItem st k v) k = some v := by
  induction st with
  | nil => simp [setItem, lookupKey, List.lookup]
  | cons kv rest ih =>
    obtain ⟨k', v'⟩ := kv
    unfold setItem
    by_cases h : k' = k
    · subst h
      simp [lookupKey, List.lookup]
    · have hb : (k == k') = false := beq_eq_false_iff_ne.mpr (Ne.symm h)
      simpa [h, lookupKey, List.lookup, hb] using ih

theorem lookup_setItem_ne (st : Store) (k k2 v : String) (h : k2 ≠ k) :
    lookupKey (setItem st k v) k2 = lookupKey st k2 := by
  have hb : (k2 == k) = false := beq_eq_false_iff_ne.mpr h
  induction st with
  | nil => simp [setItem, lookupKey, List.lookup, hb]
  | cons kv rest ih =>
    obtain ⟨k', v'⟩ := kv
    unfold setItem
    by_cases hk : k' = k
    · subst hk
      simp [lookupKey, List.lookup, hb]
    · by_cases hk2 : k2 = k'
      · subst hk2
        simp [hk, lookupKey, List.lookup]
      · have hb2 : (k2 == k') = false := beq_eq_false_iff_ne.mpr hk2
        simpa [hk, lookupKey, List.lookup, hb2] using ih

theorem lookup_removeItem_self (st : Store) (k : String) :
    lookupKey (removeItem st k) k = none := by
  induction st with
  | nil => rfl
  | cons kv rest ih =>
    obtain ⟨k', v'⟩ := kv
    unfold removeItem
    by_cases h : k' = k
    · simpa [h] using ih
    · have hb : (k == k') = false := beq_eq_false_iff_ne.mpr (Ne.symm h)
      simpa [h, lookupKey, List.lookup, hb] using ih

theorem lookup_removeItem_ne (st : Store) (k k2 : String) (h : k2 ≠ k) :
    lookupKey (removeItem st k) k2 = lookupKey st k2 := by
  induction st with
  | nil => rfl
  | cons kv rest ih =>
    obtain ⟨k', v'⟩ := kv
    unfold removeItem
    by_cases hk : k' = k
    · subst hk
      have hb : (k2 == k') = false := beq_eq_false_iff_ne.mpr h
      simpa [lookupKey, List.lookup, hb] using ih
    · by_cases hk2 : k2 = k'
      · subst hk2
        simp [hk, lookupKey, List.lookup]
      · have hb2 : (k2 == k') = false := beq_eq_false_iff_ne.mpr hk2
        simpa [hk, lookupKey, List.lookup, hb2] using ih

theorem lookup_clearTransactionCache_self (st : Store) (ck : String) :
    lookupKey (clearTransactionCache st ck) ck = none := by
  unfold clearTransactionCache
  by_cases h : ck = expiryKeyOf ck
  · rw [← h, lookup_removeItem_self]
  · rw [lookup_removeItem_ne _ _ _ h, lookup_removeItem_self]

theorem keys_setItem (st : Store) (k v : String) :
    (setItem st k v).map Prod.fst =
      if (lookupKey st k).isSome then st.map Prod.fst
      else st.map Prod.fst ++ [k] := by
  induction st with
  | nil => simp [setItem, lookupKey, List.lookup]
  | cons kv rest ih =>
    obtain ⟨k', v'⟩ := kv
    unfold setItem
    by_cases h : k' = k
    · subst h
      simp [lookupKey, List.lookup]
    · have hb : (k == k') = false := beq_eq_false_iff_ne.mpr (Ne.symm h)
      simp only [h, if_false, List.map_cons, lookupKey, List.lookup, hb]
      rw [show (lookupKey rest k) = List.lookup k rest from rfl] at ih
      split <;> simp_all [lookupKey]

/-- The number of live version-tagged range keys, as enforceCacheLimit
counts them. -/
def cacheKeyCount (st : Store) : Nat :=
  ((st.map Prod.fst).filter isLimitCacheKey).length

theorem cacheKeyCount_setItem_le (st : Store) (k v : String) :
    cacheKeyCount (setItem st k v) ≤ cacheKeyCount st + 1 := by
  unfold cacheKeyCount
  rw [keys_setItem]
  split
  · omega
  · rw [List.filter_append]
    simp only [List.length_append]
    cases hk : isLimitCacheKey k <;> simp [hk]

theorem cacheKeyCount_setItem_not (st : Store) (k v : String)
    (h : isLimitCacheKey k = false) :
    cacheKeyCount (setItem st k v) = cacheKeyCount st := by
  unfold cacheKeyCount
  rw [keys_setItem]
  split
  · rfl
  · rw [List.filter_append]
    simp [h]

theorem removeItem_sublist (st : Store) (k : String) :
    (removeItem st k).Sublist st := by
  induction st with
  | nil => exact List.Sublist.refl []
  | cons kv rest ih =>
    obtain ⟨k', v'⟩ := kv
    unfold removeItem
    by_cases h : k' = k
    · simp only [h, if_true]
      exact ih.cons _
    · simp only [h, if_false]
      exact ih.cons₂ _

theorem cacheKeyCount_removeItem_le (st : Store) (k : String) :
    cacheKeyCount (removeItem st k) ≤ cacheKeyCount st := by
  unfold cacheKeyCount
  exact ((((removeItem_sublist st k).map Prod.fst).filter isLimitCacheKey)).length_le

theorem enforceCacheLimit_noop (st : Store)
    (h : cacheKeyCount st < MAX_CACHE_ENTRIES) :
    enforceCacheLimit st = st := by
  unfold enforceCacheLimit
  rw [if_neg]
  exact fun hle => absurd hle (by unfold cacheKeyCount at h; omega)

/-! ### Key shape lemmas -/

theorem cache_ne_expiry_key (a b : String) :
    cacheKeyHead ++ a ≠ expiryKeyHead ++ b := by
  intro h
  have h2 := congrArg (fun s => s.toList[23]?) h
  simp only [toList_append] at h2
  rw [List.getElem?_append_left (by decide),
    List.getElem?_append_left (by decide)] at h2
  exact absurd h2 (by decide)

theorem not_cacheHead_of_expiryHead (x : String) :
    strStartsWith (expiryKeyHead ++ x) cacheKeyHead = false := by
  unfold strStartsWith
  rw [toList_append]
  rw [Bool.eq_false_iff]
  intro hpre
  have hp : cacheKeyHead.toList <+: (expiryKeyHead.toList ++ x.toList) :=
    List.isPrefixOf_iff_prefix.mp hpre
  have htake := List.prefix_iff_eq_take.mp hp
  rw [List.take_append_eq_append_take] at htake
  have : cacheKeyHead.toList.length - expiryKeyHead.toList.length = 0 := by decide
  rw [this] at htake
  simp only [List.take_zero, List.append_nil] at htake
  exact absurd htake (by decide)

theorem getTransactionCacheKey_eq (f t : Option String) (dF dT : String) :
    getTransactionCacheKey f t dF dT =
      cacheKeyHead ++ (CACHE_VERSION ++ "_" ++ getDateRangeKey f t dF dT) := by
  simp [getTransactionCacheKey, String.append_assoc]

theorem expiryKeyOf_eq (ck : String) :
    expiryKeyOf ck =
      expiryKeyHead ++ (CACHE_VERSION ++ "_" ++ lastSplitSeg '_' ck) := by
  simp [expiryKeyOf, String.append_assoc]

theorem cacheKey_ne_expiryKeyOf (f t : Option String) (dF dT : String)
    (ck : String) : getTransactionCacheKey f t dF dT ≠ expiryKeyOf ck := by
  rw [getTransactionCacheKey_eq, expiryKeyOf_eq]
  exact cache_ne_expiry_key _ _

theorem isLimitCacheKey_expiryKeyOf (ck : String) :
    isLimitCacheKey (expiryKeyOf ck) = false := by
  rw [expiryKeyOf_eq]
  unfold isLimitCacheKey
  rw [not_cacheHead_of_expiryHead]
  rfl

theorem isLimitCacheKey_testStorageKey :
    isLimitCacheKey testStorageKey = false := by
  decide

/-! ### Aggregation fold lemmas -/

def sumVals (l : List (String × Int)) : Int := (l.map Prod.snd).sum

theorem sumVals_bumpBy (m : List (String × Int)) (k : String) (x : Int) :
    sumVals (bumpBy (· + ·) 0 m k x) = sumVals m + x := by
  induction m with
  | nil => simp [bumpBy, sumVals]
  | cons kv rest ih =>
    obtain ⟨k', v⟩ := kv
    unfold bumpBy
    by_cases h : k' = k
    · simp only [h, if_true]
      simp [sumVals]
      ring
    · simp only [h, if_false]
      simp only [sumVals, List.map_cons, List.sum_cons] at ih ⊢
      rw [ih]
      ring

/-- The running invariant of the aggregation loop: `totalTokens` is the
sum of the per-model token map's values. -/
def tokensInv (acc : AggAcc) : Prop := acc.totalTokens = sumVals acc.toks

theorem stepTransaction_tokensInv (acc : AggAcc) (t : JValue)
    (h : tokensInv acc) : tokensInv (stepTransaction acc t) := by
  unfold tokensInv at h ⊢
  unfold stepTransaction
  by_cases hg : (!truthy (modelOf t) || isUnknownModel (modelOf t)) = true
  · rw [if_pos hg]
    exact h
  · rw [if_neg hg]
    cases hc : costOf t with
    | none => exact h
    | some cost =>
      dsimp only
      cases hm : modelOf t with
      | str s =>
        dsimp only
        by_cases hgate : 0 < cost ∨ 0 < promptTokensOf t + completionTokensOf t
        · rw [if_pos hgate]
          simp [sumVals_bumpBy, h]
        · rw [if_neg hgate]
          exact h
      | null => exact h
      | bool b => exact h
      | num q => exact h
      | arr l => exact h
      | obj l => exact h

theorem foldl_tokensInv :
    ∀ (ts : List JValue) (acc : AggAcc), tokensInv acc →
      tokensInv (ts.foldl stepTransaction acc) := by
  intro ts
  induction ts with
  | nil => exact fun acc h => h
  | cons t rest ih =>
    intro acc h
    exact ih _ (stepTransaction_tokensInv acc t h)

theorem processJSONData_tokensInv (j : JValue) (fd td : Option Int) :
    (processJSONData j fd td).totalTokens =
      sumVals (processJSONData j fd td).tokens := by
  unfold processJSONData
  cases hft : findTransactions j with
  | none => rfl
  | some ts =>
    dsimp only
    by_cases he : ts.isEmpty
    · simp [he, zeroResult, sumVals]
    · rw [if_neg he]
      have h0 : tokensInv ⟨[], [], 0, 0, 0⟩ := rfl
      cases hcond : (fd.isSome || td.isSome)
      · simpa [hcond, tokensInv] using foldl_tokensInv ts _ h0
      · simpa [hcond, tokensInv] using
          foldl_tokensInv (ts.filter (keepTransaction fd td)) _ h0

theorem processStringInput_tokensInv (s : String) (fd td : Option Int) :
    (processStringInput s fd td).totalTokens =
      sumVals (processStringInput s fd td).tokens := by
  unfold processStringInput
  split
  · rfl
  · cases parseJSON s with
    | none => rfl
    | some j => exact processJSONData_tokensInv j fd td

/-- C9.  For every aggregation result produced by
processOpenRouterResponse, `totalTokens` equals the sum of the values of
the per-model `tokens` mapping: the loop of processJSONData adds a
record's token contribution to both simultaneously, and every
failure path returns the zero result. -/
theorem C9_totalTokens_eq_sum_tokens (input : RawInput) (fd td : Option Int) :
    (processOpenRouterResponse input fd td).totalTokens =
      sumVals (processOpenRouterResponse input fd td).tokens := by
  unfold processOpenRouterResponse
  cases input with
  | str s => exact processStringInput_tokensInv s fd td
  | val v =>
    cases v with
    | obj l => exact processJSONData_tokensInv _ fd td
    | arr l => exact processJSONData_tokensInv _ fd td
    | str s => exact processStringInput_tokensInv s fd td
    | null => rfl
    | bool b => rfl
    | num q => rfl

/-- C4.  Aggregation is total and recovers from malformed input: a
string that fails to parse as JSON yields the zero result (the thrown
parse error is caught by the surrounding handler), and so does any
parsed payload in which no transaction array is found under `data`,
`data.data`, or as the top-level array.  The embedding
processOpenRouterResponse is a total function, reflecting that no
exception escapes to the caller. -/
theorem C4_malformed_payload_zero (s : String) (j : JValue)
    (fd td : Option Int) :
    (parseJSON s = none →
      processOpenRouterResponse (.str s) fd td = zeroResult) ∧
    (parseJSON s = some j → findTransactions j = none →
      processOpenRouterResponse (.str s) fd td = zeroResult) ∧
    (findTransactions j = none → processJSONData j fd td = zeroResult) := by
  refine ⟨?_, ?_, ?_⟩
  · intro hp
    show processStringInput s fd td = zeroResult
    unfold processStringInput
    by_cases hs : s = ""
    · rw [if_pos hs]
    · rw [if_neg hs, hp]
  · intro hp hft
    show processStringInput s fd td = zeroResult
    unfold processStringInput
    by_cases hs : s = ""
    · rw [if_pos hs]
    · rw [if_neg hs, hp]
      dsimp only
      unfold processJSONData
      rw [hft]
  · intro hft
    unfold processJSONData
    rw [hft]

/-- Witness for C4 at concrete inputs: the string `"not json"` fails to
parse and aggregates to the zero result; the object `{}` parses but
holds no transaction array and also aggregates to the zero result. -/
theorem C4_malformed_payload_zero_witness :
    processOpenRouterResponse (.str "not json") none none = zeroResult ∧
    processJSONData (.obj []) none none = zeroResult :=
  ⟨(C4_malformed_payload_zero "not json" (.obj []) none none).1 rfl,
   (C4_malformed_payload_zero "not json" (.obj []) none none).2.2 rfl⟩

/-- C8.  The date-range normalization repeated in triggerAutoRefresh,
processAndDisplayResults and analyzeData: when both boundaries are valid
date strings, the normalized range has `from <= to` and `to` no later
than the end of today.  `todayMid` is the value of today's date string
(UTC midnight), which precedes `endOfToday` (today at 23:59:59.999). -/
theorem C8_normalize_range_sound (f t todayStr : String)
    (endOfToday todayMid fv tv : Int)
    (hts : isoDateMs todayStr = some todayMid)
    (hmid : todayMid ≤ endOfToday)
    (hf : isoDateMs f = some fv)
    (ht : isoDateMs t = some tv) :
    ∃ fv' tv',
      isoDateMs (normalizeDateRange f t endOfToday todayStr).1 = some fv' ∧
      isoDateMs (normalizeDateRange f t endOfToday todayStr).2 = some tv' ∧
      fv' ≤ tv' ∧ tv' ≤ endOfToday := by
  unfold normalizeDateRange
  rw [ht, hf]
  by_cases hclamp : endOfToday < tv
  · simp only [hclamp, if_true, hts]
    by_cases hswap : todayMid < fv
    · simp only [hswap, if_true, hts]
      exact ⟨todayMid, todayMid, rfl, rfl, le_refl _, hmid⟩
    · simp only [hswap, if_false, hf]
      exact ⟨fv, todayMid, rfl, rfl, by omega, hmid⟩
  · simp only [hclamp, if_false, ht]
    by_cases hswap : tv < fv
    · simp only [hswap, if_true, ht]
      exact ⟨tv, tv, rfl, rfl, le_refl _, by omega⟩
    · simp only [hswap, if_false, hf]
      exact ⟨fv, tv, rfl, rfl, by omega, by omega⟩

/-- Witness for C8: a range reaching into 2099 is clamped to today and
reordered so that `from <= to <= end of today`. -/
theorem C8_normalize_range_sound_witness :
    ∃ fv' tv',
      isoDateMs (normalizeDateRange "2025-01-01" "2099-12-31"
        (1718496000000 + 86399999) "2024-06-16").1 = some fv' ∧
      isoDateMs (normalizeDateRange "2025-01-01" "2099-12-31"
        (1718496000000 + 86399999) "2024-06-16").2 = some tv' ∧
      fv' ≤ tv' ∧ tv' ≤ 1718496000000 + 86399999 :=
  C8_normalize_range_sound "2025-01-01" "2099-12-31" "2024-06-16"
    (1718496000000 + 86399999) 1718496000000 1735689600000 4102358400000
    (by decide) (by decide) (by decide) (by decide)

/-! ### Per-key lookup lemmas for the aggregation maps -/

theorem lookup_bumpBy_self {α : Type} (add : α → α → α) (z : α)
    (m : List (String × α)) (k : String) (x : α) :
    (bumpBy add z m k x).lookup k = some (add ((m.lookup k).getD z) x) := by
  induction m with
  | nil => simp [bumpBy, List.lookup]
  | cons kv rest ih =>
    obtain ⟨k', v⟩ := kv
    unfold bumpBy
    by_cases h : k' = k
    · subst h
      simp [List.lookup]
    · have hb : (k == k') = false := beq_eq_false_iff_ne.mpr (Ne.symm h)
      simpa [h, List.lookup, hb] using ih

theorem lookup_bumpBy_ne {α : Type} (add : α → α → α) (z : α)
    (m : List (String × α)) (k k2 : String) (x : α) (h : k2 ≠ k) :
    (bumpBy add z m k x).lookup k2 = m.lookup k2 := by
  induction m with
  | nil =>
    have hb : (k2 == k) = false := beq_eq_false_iff_ne.mpr h
    simp [bumpBy, List.lookup, hb]
  | cons kv rest ih =>
    obtain ⟨k', v⟩ := kv
    unfold bumpBy
    by_cases hk : k' = k
    · subst hk
      have hb : (k2 == k') = false := beq_eq_false_iff_ne.mpr h
      simp [List.lookup, hb]
    · by_cases hk2 : k2 = k'
      · subst hk2
        simp [hk, List.lookup]
      · have hb2 : (k2 == k') = false := beq_eq_false_iff_ne.mpr hk2
        simpa [hk, List.lookup, hb2] using ih

/-- Value read off an aggregation map, `m[k] || 0`. -/
def valAt {α : Type} [Zero α] (m : List (String × α)) (k : String) : α :=
  (m.lookup k).getD 0

/-! ### C3: model-key normalization and the concrete aggregation example -/

/-- Modelled from the spec's words: the normalized model key is "the
substring after the final '/'" of the identifier. -/
def claimedModelKey (s : String) : String :=
  String.mk ((jsSplit '/' s.toList).getLastD [])

theorem mk_toList (s : String) : String.mk s.toList = s := by
  cases s
  rfl

theorem modelKeyOf_strip (p m : String) (hsl : '/' ∉ m.toList)
    (htr : jsTrim m = m) (hne : m ≠ "") :
    modelKeyOf (p ++ "/" ++ m) = m := by
  unfold modelKeyOf
  have h1 : (p ++ "/" ++ m).toList = p.toList ++ '/' :: m.toList := by
    rw [toList_append, toList_append]
    simp [String.toList]
  rw [h1, lastSeg_append_sep, lastSeg_no_sep _ _ hsl, mk_toList, htr,
    if_neg hne]

/-- C3 (amended).  The two-record example payload aggregates to
`costs["gpt-4"] = 2.0`, `tokens["gpt-4"] = 150`, `totalTokens = 150`;
`anthropic/claude-3-opus` aggregates under `claude-3-opus`; and in
general a model identifier of the form `provider/name` whose name part
is non-empty, slash-free and whitespace-trimmed is normalized to exactly
the name part.  (The code additionally trims the final segment and falls
back to the full identifier when the segment is empty — see the
counterexample.) -/
theorem C3_aggregation_example (p m : String) (hsl : '/' ∉ m.toList)
    (htr : jsTrim m = m) (hne : m ≠ "") :
    ((processJSONData
        (.arr [.obj [("model", .str "openai/gpt-4"), ("usage", .str "1.5"),
                     ("prompt_tokens", .str "100")],
               .obj [("model", .str "openai/gpt-4"), ("usage", .str "0.5"),
                     ("prompt_tokens", .str "50")]]) none none).costs.lookup
        "gpt-4" = some 2 ∧
     (processJSONData
        (.arr [.obj [("model", .str "openai/gpt-4"), ("usage", .str "1.5"),
                     ("prompt_tokens", .str "100")],
               .obj [("model", .str "openai/gpt-4"), ("usage", .str "0.5"),
                     ("prompt_tokens", .str "50")]]) none none).tokens.lookup
        "gpt-4" = some 150 ∧
     (processJSONData
        (.arr [.obj [("model", .str "openai/gpt-4"), ("usage", .str "1.5"),
                     ("prompt_tokens", .str "100")],
               .obj [("model", .str "openai/gpt-4"), ("usage", .str "0.5"),
                     ("prompt_tokens", .str "50")]]) none none).totalTokens =
        150) ∧
    (processJSONData
        (.arr [.obj [("model", .str "anthropic/claude-3-opus"),
                     ("usage", .str "1")]]) none none).costs.lookup
      "claude-3-opus" = some 1 ∧
    modelKeyOf (p ++ "/" ++ m) = m := by
  refine ⟨⟨by decide, by decide, by decide⟩, by decide, ?_⟩
  exact modelKeyOf_strip p m hsl htr hne

/-- Witness for C3 at the claim's own example identifier. -/
theorem C3_aggregation_example_witness :
    modelKeyOf ("anthropic" ++ "/" ++ "claude-3-opus") = "claude-3-opus" :=
  (C3_aggregation_example "anthropic" "claude-3-opus" (by decide) (by decide)
    (by decide)).2.2

/-- C3 counterexample.  The claim describes normalization as taking "the
substring after the final '/'".  For the identifier `"a/"` that
substring is empty, but the code trims the popped segment and falls back
to the whole identifier when it is falsy, so the record aggregates under
`"a/"`, not under `""`. -/
theorem C3_counterexample :
    (processJSONData (.arr [.obj [("model", .str "a/"), ("usage", .str "1")]])
        none none).costs = [("a/", 1)] ∧
    (processJSONData (.arr [.obj [("model", .str "a/"), ("usage", .str "1")]])
        none none).costs.lookup (claimedModelKey "a/") = none ∧
    claimedModelKey "a/" = "" := by
  refine ⟨by decide, by decide, by decide⟩

/-! ### C5: date filtering -/

/-- Modelled from the spec's words: the date is "taken from the first
present of {date, timestamp, created_at, createdAt}" — presence, not
truthiness. -/
def firstPresentField (t : JValue) : List String → Option JValue
  | [] => none
  | k :: ks =>
    match jfield t k with
    | some v => some v
    | none => firstPresentField t ks

/-- C5 (amended).  The date filter excludes a record exactly when the
first present AND TRUTHY of {date, timestamp, created_at, createdAt}
parses to a date strictly before `fromDate` or strictly after `toDate`;
records whose chain yields no truthy value, or an unparseable one, are
kept (fail-open); and with neither bound the predicate keeps every
record (processJSONData does not even apply it then). -/
theorem C5_date_filter_characterization (fd td : Option Int) (t : JValue) :
    (keepTransaction fd td t = false ↔
      ∃ v d, firstTruthyField t txDateFieldNames = some v ∧
        jsDateVal v = some d ∧
        ((∃ f, fd = some f ∧ d < f) ∨ (∃ u, td = some u ∧ u < d))) ∧
    keepTransaction none none t = true := by
  constructor
  · unfold keepTransaction
    cases hft : firstTruthyField t txDateFieldNames with
    | none => simp
    | some v =>
      cases hdv : jsDateVal v with
      | none => simp [hdv]
      | some d =>
        cases fd with
        | none =>
          cases td with
          | none => simp [hdv]
          | some u =>
            by_cases h2 : u < d
            · simp [hdv, h2]
            · simp [hdv, h2]
        | some f =>
          by_cases h1 : d < f
          · simp [hdv, h1]
          · cases td with
            | none => simp [hdv, h1]
            | some u =>
              by_cases h2 : u < d
              · simp [hdv, h1, h2]
              · simp [hdv, h1, h2]
  · unfold keepTransaction
    cases hft : firstTruthyField t txDateFieldNames with
    | none => rfl
    | some v =>
      cases hdv : jsDateVal v with
      | none => simp [hdv]
      | some d => simp [hdv]

/-- C5 counterexample.  The claim reads the date from the first PRESENT
field, so the record `{date: "", timestamp: "2024-01-15", model: "m",
usage: "1"}` has the unparseable date `""` and must be included
(fail-open).  The code skips falsy field values, reads
`"2024-01-15"`, and with `fromDate = 2024-02-01` excludes the record:
the aggregate is empty, while without the bound the record aggregates
normally. -/
theorem C5_counterexample :
    processJSONData
        (.arr [.obj [("date", .str ""), ("timestamp", .str "2024-01-15"),
                     ("model", .str "m"), ("usage", .str "1")]])
        (isoDateMs "2024-02-01") none = zeroResult ∧
    (processJSONData
        (.arr [.obj [("date", .str ""), ("timestamp", .str "2024-01-15"),
                     ("model", .str "m"), ("usage", .str "1")]])
        none none).costs = [("m", 1)] ∧
    firstPresentField
        (.obj [("date", .str ""), ("timestamp", .str "2024-01-15"),
               ("model", .str "m"), ("usage", .str "1")])
        txDateFieldNames = some (.str "") ∧
    jsDateVal (.str "") = none := by
  refine ⟨by decide, by decide, rfl, rfl⟩

/-! ### C6: sign and monotonicity of the aggregation maps -/

/-- Every parse of the record's cost is non-negative. -/
def recCostOk (t : JValue) : Prop := ∀ c, costOf t = some c → 0 ≤ c

/-- The record's total token contribution is non-negative. -/
def recTokOk (t : JValue) : Prop :=
  0 ≤ promptTokensOf t + completionTokensOf t

/-- Both aggregation maps hold only non-negative values. -/
def NNAcc (acc : AggAcc) : Prop :=
  (∀ k v, acc.costs.lookup k = some v → 0 ≤ v) ∧
  (∀ k v, acc.toks.lookup k = some v → 0 ≤ v)

theorem valAt_bumpBy_qadd (m : List (String × ℚ)) (k k2 : String) (x : ℚ) :
    valAt (bumpBy qadd 0 m k x) k2 =
      if k2 = k then valAt m k + x else valAt m k2 := by
  unfold valAt
  by_cases h : k2 = k
  · subst h
    rw [lookup_bumpBy_self, if_pos rfl]
    simp [qadd_eq_add]
  · rw [lookup_bumpBy_ne _ _ _ _ _ _ h, if_neg h]

theorem valAt_bumpBy_addInt (m : List (String × Int)) (k k2 : String)
    (x : Int) :
    valAt (bumpBy (· + ·) 0 m k x) k2 =
      if k2 = k then valAt m k + x else valAt m k2 := by
  unfold valAt
  by_cases h : k2 = k
  · subst h
    rw [lookup_bumpBy_self, if_pos rfl]
    rfl
  · rw [lookup_bumpBy_ne _ _ _ _ _ _ h, if_neg h]

theorem stepTransaction_mono (acc : AggAcc) (t : JValue)
    (hc : recCostOk t) (ht : recTokOk t) :
    (∀ k, valAt acc.costs k ≤ valAt (stepTransaction acc t).costs k) ∧
    (∀ k, valAt acc.toks k ≤ valAt (stepTransaction acc t).toks k) := by
  unfold stepTransaction
  by_cases hg : (!truthy (modelOf t) || isUnknownModel (modelOf t)) = true
  · rw [if_pos hg]
    exact ⟨fun k => le_refl _, fun k => le_refl _⟩
  · rw [if_neg hg]
    cases hcv : costOf t with
    | none => exact ⟨fun k => le_refl _, fun k => le_refl _⟩
    | some cost =>
      dsimp only
      cases hm : modelOf t with
      | str s =>
        dsimp only
        by_cases hgate : 0 < cost ∨ 0 < promptTokensOf t + completionTokensOf t
        · rw [if_pos hgate]
          constructor
          · intro k
            show valAt acc.costs k ≤
              valAt (bumpBy qadd 0 acc.costs (modelKeyOf s) cost) k
            rw [valAt_bumpBy_qadd]
            by_cases hk : k = modelKeyOf s
            · rw [if_pos hk, hk]
              exact le_add_of_nonneg_right (hc cost hcv)
            · rw [if_neg hk]
          · intro k
            show valAt acc.toks k ≤
              valAt (bumpBy (· + ·) 0 acc.toks (modelKeyOf s)
                (promptTokensOf t + completionTokensOf t)) k
            rw [valAt_bumpBy_addInt]
            by_cases hk : k = modelKeyOf s
            · rw [if_pos hk, hk]
              exact le_add_of_nonneg_right ht
            · rw [if_neg hk]
        · rw [if_neg hgate]
          exact ⟨fun k => le_refl _, fun k => le_refl _⟩
      | null => exact ⟨fun k => le_refl _, fun k => le_refl _⟩
      | bool b => exact ⟨fun k => le_refl _, fun k => le_refl _⟩
      | num q => exact ⟨fun k => le_refl _, fun k => le_refl _⟩
      | arr l => exact ⟨fun k => le_refl _, fun k => le_refl _⟩
      | obj l => exact ⟨fun k => le_refl _, fun k => le_refl _⟩

theorem nonneg_of_lookup_bumpBy_qadd (m : List (String × ℚ)) (k0 : String)
    (x : ℚ) (hx : 0 ≤ x)
    (hm : ∀ k v, m.lookup k = some v → 0 ≤ v) :
    ∀ k v, (bumpBy qadd 0 m k0 x).lookup k = some v → 0 ≤ v := by
  intro k v hv
  by_cases hk : k = k0
  · subst hk
    rw [lookup_bumpBy_self] at hv
    injection hv with hv
    rw [← hv, qadd_eq_add]
    have h0 : 0 ≤ (m.lookup k).getD 0 := by
      cases hl : m.lookup k with
      | none => simp
      | some v0 => simpa using hm k v0 hl
    exact add_nonneg h0 hx
  · rw [lookup_bumpBy_ne _ _ _ _ _ _ hk] at hv
    exact hm k v hv

theorem nonneg_of_lookup_bumpBy_addInt (m : List (String × Int)) (k0 : String)
    (x : Int) (hx : 0 ≤ x)
    (hm : ∀ k v, m.lookup k = some v → 0 ≤ v) :
    ∀ k v, (bumpBy (· + ·) 0 m k0 x).lookup k = some v → 0 ≤ v := by
  intro k v hv
  by_cases hk : k = k0
  · subst hk
    rw [lookup_bumpBy_self] at hv
    injection hv with hv
    rw [← hv]
    have h0 : 0 ≤ (m.lookup k).getD 0 := by
      cases hl : m.lookup k with
      | none => simp
      | some v0 => simpa using hm k v0 hl
    exact add_nonneg h0 hx
  · rw [lookup_bumpBy_ne _ _ _ _ _ _ hk] at hv
    exact hm k v hv

theorem stepTransaction_NN (acc : AggAcc) (t : JValue)
    (hc : recCostOk t) (ht : recTokOk t) (h : NNAcc acc) :
    NNAcc (stepTransaction acc t) := by
  unfold stepTransaction
  by_cases hg : (!truthy (modelOf t) || isUnknownModel (modelOf t)) = true
  · rw [if_pos hg]
    exact h
  · rw [if_neg hg]
    cases hcv : costOf t with
    | none => exact h
    | some cost =>
      dsimp only
      cases hm : modelOf t with
      | str s =>
        dsimp only
        by_cases hgate : 0 < cost ∨ 0 < promptTokensOf t + completionTokensOf t
        · rw [if_pos hgate]
          exact ⟨nonneg_of_lookup_bumpBy_qadd _ _ _ (hc cost hcv) h.1,
                 nonneg_of_lookup_bumpBy_addInt _ _ _ ht h.2⟩
        · rw [if_neg hgate]
          exact h
      | null => exact h
      | bool b => exact h
      | num q => exact h
      | arr l => exact h
      | obj l => exact h

theorem foldl_NN :
    ∀ (ts : List JValue), (∀ t ∈ ts, recCostOk t ∧ recTokOk t) →
      ∀ acc, NNAcc acc → NNAcc (ts.foldl stepTransaction acc) := by
  intro ts
  induction ts with
  | nil => exact fun _ acc h => h
  | cons t rest ih =>
    intro hts acc h
    have h1 := hts t (List.mem_cons_self t rest)
    exact ih (fun t' ht' => hts t' (List.mem_cons_of_mem t ht'))
      _ (stepTransaction_NN acc t h1.1 h1.2 h)

/-- C6 (amended).  During a single aggregation pass, each per-model cost
and token value is non-decreasing under every step whose record has a
non-negative parsed cost and token contribution, and the final mappings
hold no negative value when every record of the payload satisfies those
sign conditions.  (Unconditionally the claim is false: a record with a
negative parsed cost but positive tokens passes the
`cost > 0 || tokens > 0` gate and drives its model's cost negative — see
the counterexample.) -/
theorem C6_value_monotonicity :
    (∀ (acc : AggAcc) (t : JValue), recCostOk t → recTokOk t →
      (∀ k, valAt acc.costs k ≤ valAt (stepTransaction acc t).costs k) ∧
      (∀ k, valAt acc.toks k ≤ valAt (stepTransaction acc t).toks k)) ∧
    (∀ (j : JValue) (fd td : Option Int),
      (∀ t ∈ (findTransactions j).getD [], recCostOk t ∧ recTokOk t) →
      (∀ k v, (processJSONData j fd td).costs.lookup k = some v → 0 ≤ v) ∧
      (∀ k v, (processJSONData j fd td).tokens.lookup k = some v → 0 ≤ v)) := by
  constructor
  · exact fun acc t hc ht => stepTransaction_mono acc t hc ht
  · intro j fd td hts
    unfold processJSONData
    cases hft : findTransactions j with
    | none =>
      constructor <;> intro k v hv <;> simp [zeroResult, List.lookup] at hv
    | some ts =>
      dsimp only
      rw [hft] at hts
      simp only [Option.getD_some] at hts
      by_cases he : ts.isEmpty
      · rw [if_pos he]
        constructor <;> intro k v hv <;> simp [zeroResult, List.lookup] at hv
      · rw [if_neg he]
        have h0 : NNAcc ⟨[], [], 0, 0, 0⟩ := by
          constructor <;> intro k v hv <;> simp [List.lookup] at hv
        cases hcond : (fd.isSome || td.isSome)
        · simp only [hcond, if_false]
          exact foldl_NN ts hts _ h0
        · simp only [hcond, if_true]
          refine foldl_NN _ (fun t htm => hts t ?_) _ h0
          exact (List.mem_filter.mp htm).1

/-- Witness for C6 at a concrete record with cost `"2"` and no tokens:
the step does not decrease the `"m"` entry, and the aggregated cost
value is non-negative. -/
theorem C6_value_monotonicity_witness :
    valAt (([] : List (String × ℚ))) "m" ≤
      valAt (stepTransaction ⟨[], [], 0, 0, 0⟩
        (.obj [("model", .str "m"), ("usage", .str "2")])).costs "m" ∧
    (0 : ℚ) ≤ 2 := by
  have hc : recCostOk (.obj [("model", .str "m"), ("usage", .str "2")]) := by
    intro c h
    have h2 : costOf (.obj [("model", .str "m"), ("usage", .str "2")]) =
        some 2 := by decide
    rw [h2] at h
    injection h with h3
    rw [← h3]
    decide
  have ht : recTokOk (.obj [("model", .str "m"), ("usage", .str "2")]) := by
    unfold recTokOk
    decide
  have hts : ∀ t ∈ (findTransactions
      (.arr [.obj [("model", .str "m"), ("usage", .str "2")]])).getD [],
      recCostOk t ∧ recTokOk t := by
    intro t htm
    have hr : (findTransactions
        (.arr [.obj [("model", .str "m"), ("usage", .str "2")]])).getD
        ([] : List JValue) =
        [.obj [("model", .str "m"), ("usage", .str "2")]] := rfl
    rw [hr] at htm
    simp only [List.mem_singleton] at htm
    subst htm
    exact ⟨hc, ht⟩
  refine ⟨(C6_value_monotonicity.1 ⟨[], [], 0, 0, 0⟩
    (.obj [("model", .str "m"), ("usage", .str "2")]) hc ht).1 "m", ?_⟩
  exact (C6_value_monotonicity.2
      (.arr [.obj [("model", .str "m"), ("usage", .str "2")]]) none none
      hts).1 "m" 2 (by decide)

/-- C6 counterexample.  The record `{model: "m", usage: "-1",
prompt_tokens: "10"}` parses to cost `-1` but passes the gate through
its positive tokens, so the cost map's only value is negative. -/
theorem C6_counterexample :
    (processJSONData
        (.arr [.obj [("model", .str "m"), ("usage", .str "-1"),
                     ("prompt_tokens", .str "10")]])
        none none).costs = [("m", -1)] ∧
    ((-1 : ℚ) < 0) := by
  refine ⟨by decide, by decide⟩

/-! ### Cache read/write helper lemmas -/

/-- The entry behind `ck` has no expiry record, an empty one, or one
parsing to a timestamp strictly in the past. -/
def expiryMissingOrPast (now : Nat) (st : Store) (ck : String) : Prop :=
  match lookupKey st (expiryKeyOf ck) with
  | none => True
  | some e => e = "" ∨ ∃ n : Int, jsParseIntStr e = some n ∧ n < (now : Int)

theorem getByKey_expired_helper (now : Nat) (st : Store) (ck : String)
    (h : expiryMissingOrPast now st ck) :
    (getCachedDataByKey now st ck).1 = none ∧
    lookupKey (getCachedDataByKey now st ck).2 ck = none := by
  unfold getCachedDataByKey
  unfold expiryMissingOrPast at h
  cases hl : lookupKey st (expiryKeyOf ck) with
  | none =>
    constructor
    · simp [hl]
    · simp [hl, lookup_clearTransactionCache_self]
  | some e =>
    rw [hl] at h
    by_cases he0 : e = ""
    · constructor <;> simp [hl, he0, lookup_clearTransactionCache_self]
    · rcases h with he | ⟨n, hp, hn⟩
      · exact absurd he he0
      · constructor <;>
          simp [hl, he0, hp, hn, lookup_clearTransactionCache_self]

theorem getByKey_fresh (now : Nat) (st : Store) (ck data : String) (exp : Nat)
    (hek : lookupKey st (expiryKeyOf ck) = some (natToString exp))
    (hnow : now ≤ exp)
    (hdata : lookupKey st ck = some data)
    (hne : data ≠ "")
    (hjson : (parseJSON data).isSome = true) :
    getCachedDataByKey now st ck = (some data, st) := by
  unfold getCachedDataByKey
  rw [hek]
  dsimp only
  rw [if_neg (natToString_ne_empty exp), jsParseIntStr_natToString]
  dsimp only
  have hdec : decide ((exp : Int) < (now : Int)) = false := by
    simp only [decide_eq_false_iff_not, Int.not_lt]
    exact_mod_cast hnow
  rw [hdec]
  simp only [Bool.false_eq_true, if_false, hdata]
  rw [if_neg hne, if_pos hjson]

/-- Last `'_'`-separated segment of a range cache key: the range's end
date (when the end date itself holds no underscore). -/
theorem lastSplitSeg_cacheKey (f t defF defT : String)
    (hto : '_' ∉ t.toList) (hf : f ≠ "") (ht : t ≠ "") :
    lastSplitSeg '_' (getTransactionCacheKey (some f) (some t) defF defT)
      = t := by
  unfold lastSplitSeg getTransactionCacheKey getDateRangeKey
  dsimp only
  rw [if_neg (by simp [hf, ht])]
  have hl : (cacheKeyHead ++ CACHE_VERSION ++ "_" ++ (f ++ "_to_" ++ t)).toList
      = (cacheKeyHead.toList ++ CACHE_VERSION.toList ++ ['_'] ++ f.toList ++
          ['_', 't', 'o']) ++ '_' :: t.toList := by
    simp only [toList_append, List.append_assoc, List.cons_append,
      List.nil_append]
    rfl
  rw [hl, lastSeg_append_sep, lastSeg_no_sep _ _ hto, mk_toList]

/-! ### C1: expiry handling on the two read paths -/

/-- C1 (amended).  The exact-key lookup honors expiry: whenever the
expiry record behind a cache key is missing, empty, or parses to a past
timestamp, getCachedDataByKey returns a miss and removes the data entry
from storage.  (The overlap-covering scan does not consult expiry at
all — the counterexample shows getTransactionCachedData returning an
expired entry's payload through that path.) -/
theorem C1_expired_exact_miss (now : Nat) (st : Store) (ck : String)
    (h : expiryMissingOrPast now st ck) :
    (getCachedDataByKey now st ck).1 = none ∧
    lookupKey (getCachedDataByKey now st ck).2 ck = none :=
  getByKey_expired_helper now st ck h

/-- Witness for C1 at a concrete store whose only expiry record reads
`"100"` with `now = 200`. -/
theorem C1_expired_exact_miss_witness :
    (getCachedDataByKey 200
      [(cacheKeyHead ++ "v2_2024-01-01_to_2024-12-31", "[1]"),
       (expiryKeyOf (cacheKeyHead ++ "v2_2024-01-01_to_2024-12-31"), "100")]
      (cacheKeyHead ++ "v2_2024-01-01_to_2024-12-31")).1 = none ∧
    lookupKey (getCachedDataByKey 200
      [(cacheKeyHead ++ "v2_2024-01-01_to_2024-12-31", "[1]"),
       (expiryKeyOf (cacheKeyHead ++ "v2_2024-01-01_to_2024-12-31"), "100")]
      (cacheKeyHead ++ "v2_2024-01-01_to_2024-12-31")).2
      (cacheKeyHead ++ "v2_2024-01-01_to_2024-12-31") = none :=
  C1_expired_exact_miss 200 _ _ (by
    unfold expiryMissingOrPast
    have hl : lookupKey
        [(cacheKeyHead ++ "v2_2024-01-01_to_2024-12-31", "[1]"),
         (expiryKeyOf (cacheKeyHead ++ "v2_2024-01-01_to_2024-12-31"), "100")]
        (expiryKeyOf (cacheKeyHead ++ "v2_2024-01-01_to_2024-12-31")) =
        some "100" := by decide
    rw [hl]
    exact Or.inr ⟨100, by decide, by decide⟩)

/-- C1 counterexample.  A cache entry for 2024-01-01..2024-12-31 whose
expiry record reads `"100"` is expired at `now = 200`, yet a read for
the contained range 2024-03-01..2024-03-31 misses on the exact key and
then returns the expired entry's payload through
findOverlappingCachedData, which never checks expiry. -/
theorem C1_counterexample :
    (getTransactionCachedData 200 (some "2024-03-01") (some "2024-03-31")
      "" ""
      [(cacheKeyHead ++ "v2_2024-01-01_to_2024-12-31", "[1]"),
       (expiryKeyOf (cacheKeyHead ++ "v2_2024-01-01_to_2024-12-31"), "100")]).1
      = some "[1]" ∧
    lookupKey
      [(cacheKeyHead ++ "v2_2024-01-01_to_2024-12-31", "[1]"),
       (expiryKeyOf (cacheKeyHead ++ "v2_2024-01-01_to_2024-12-31"), "100")]
      (expiryKeyOf (cacheKeyHead ++ "v2_2024-01-01_to_2024-12-31")) =
      some "100" ∧
    jsParseIntStr "100" = some 100 ∧ ((100 : Int) < 200) ∧
    lookupKey
      [(cacheKeyHead ++ "v2_2024-01-01_to_2024-12-31", "[1]"),
       (expiryKeyOf (cacheKeyHead ++ "v2_2024-01-01_to_2024-12-31"), "100")]
      (cacheKeyHead ++ "v2_2024-01-01_to_2024-12-31") = some "[1]" := by
  refine ⟨by decide, by decide, by decide, by decide, by decide⟩

/-! ### C10: the expiry key aliases on the range's end date -/

/-- C10.  Expiry records are keyed only by the cache key's last
`'_'`-segment — the range's end date — so two ranges sharing a `to` date
share one expiry record: their derived expiry keys coincide, a write to
one range's expiry key is read back through the other's, and clearing
one range's entry (clearTransactionCache) removes the shared record,
after which an exact-key read of the other range treats it as expired
and discards its payload. -/
theorem C10_expiry_key_aliasing (f1 f2 t defF defT v : String) (st : Store)
    (now : Nat) (hto : '_' ∉ t.toList) (hf1 : f1 ≠ "") (hf2 : f2 ≠ "")
    (ht : t ≠ "") :
    expiryKeyOf (getTransactionCacheKey (some f1) (some t) defF defT) =
      expiryKeyOf (getTransactionCacheKey (some f2) (some t) defF defT) ∧
    lookupKey
      (setItem st
        (expiryKeyOf (getTransactionCacheKey (some f1) (some t) defF defT)) v)
      (expiryKeyOf (getTransactionCacheKey (some f2) (some t) defF defT)) =
      some v ∧
    (getCachedDataByKey now
      (clearTransactionCache st
        (getTransactionCacheKey (some f1) (some t) defF defT))
      (getTransactionCacheKey (some f2) (some t) defF defT)).1 = none ∧
    lookupKey
      (getCachedDataByKey now
        (clearTransactionCache st
          (getTransactionCacheKey (some f1) (some t) defF defT))
        (getTransactionCacheKey (some f2) (some t) defF defT)).2
      (getTransactionCacheKey (some f2) (some t) defF defT) = none := by
  have hkey : expiryKeyOf (getTransactionCacheKey (some f1) (some t) defF defT)
      = expiryKeyOf (getTransactionCacheKey (some f2) (some t) defF defT) := by
    unfold expiryKeyOf
    rw [lastSplitSeg_cacheKey f1 t defF defT hto hf1 ht,
      lastSplitSeg_cacheKey f2 t defF defT hto hf2 ht]
  have hmiss := getByKey_expired_helper now
    (clearTransactionCache st
      (getTransactionCacheKey (some f1) (some t) defF defT))
    (getTransactionCacheKey (some f2) (some t) defF defT)
    (by
      unfold expiryMissingOrPast
      rw [← hkey]
      unfold clearTransactionCache
      rw [lookup_removeItem_self]
      trivial)
  refine ⟨hkey, ?_, hmiss.1, hmiss.2⟩
  rw [hkey, lookup_setItem_self]

/-- Witness for C10 at the ranges 2024-01-01..2024-06-30 and
2024-06-01..2024-06-30 over the empty store. -/
theorem C10_expiry_key_aliasing_witness :
    expiryKeyOf (getTransactionCacheKey (some "2024-01-01")
        (some "2024-06-30") "" "") =
      expiryKeyOf (getTransactionCacheKey (some "2024-06-01")
        (some "2024-06-30") "" "") ∧
    lookupKey
      (setItem []
        (expiryKeyOf (getTransactionCacheKey (some "2024-01-01")
          (some "2024-06-30") "" "")) "900000")
      (expiryKeyOf (getTransactionCacheKey (some "2024-06-01")
        (some "2024-06-30") "" "")) = some "900000" ∧
    (getCachedDataByKey 0
      (clearTransactionCache []
        (getTransactionCacheKey (some "2024-01-01") (some "2024-06-30")
          "" ""))
      (getTransactionCacheKey (some "2024-06-01") (some "2024-06-30")
        "" "")).1 = none ∧
    lookupKey
      (getCachedDataByKey 0
        (clearTransactionCache []
          (getTransactionCacheKey (some "2024-01-01") (some "2024-06-30")
            "" ""))
        (getTransactionCacheKey (some "2024-06-01") (some "2024-06-30")
          "" "")).2
      (getTransactionCacheKey (some "2024-06-01") (some "2024-06-30")
        "" "") = none :=
  C10_expiry_key_aliasing "2024-01-01" "2024-06-01" "2024-06-30" "" ""
    "900000" [] 0 (by decide) (by decide) (by decide) (by decide)

/-! ### C7: cache round-trip -/

theorem setTransaction_noQuota_eq (now : Nat) (f t : Option String)
    (defF defT data : String) (st : Store) :
    setTransactionCachedData noQuota now f t defF defT data st =
      enforceCacheLimit
        (setItem
          (setItem
            (removeItem (setItem st testStorageKey "test") testStorageKey)
            (getTransactionCacheKey f t defF defT) data)
          (expiryKeyOf (getTransactionCacheKey f t defF defT))
          (natToString (now + TRANSACTION_CACHE_DURATION))) := rfl

/-- C7 (amended).  A payload that parses as well-formed JSON, written by
setTransactionCachedData with no quota failure into a store holding at
most 8 other version-tagged range entries (so that the write triggers no
eviction), is returned unchanged by an immediately following
getTransactionCachedData for the same range.  (For a payload that is not
well-formed JSON the read discards the entry and misses — see the
counterexample.) -/
theorem C7_cache_roundtrip (st : Store) (now : Nat) (f t : Option String)
    (defF defT data : String) (j : JValue)
    (hparse : parseJSON data = some j)
    (hcount : cacheKeyCount st ≤ 8) :
    (getTransactionCachedData now f t defF defT
      (setTransactionCachedData noQuota now f t defF defT data st)).1 =
      some data := by
  set ck := getTransactionCacheKey f t defF defT with hck
  set ek := expiryKeyOf ck with hek
  set st1 := removeItem (setItem st testStorageKey "test") testStorageKey
    with hst1
  set st2 := setItem st1 ck data with hst2
  set st3 := setItem st2 ek (natToString (now + TRANSACTION_CACHE_DURATION))
    with hst3
  have hckek : ck ≠ ek := cacheKey_ne_expiryKeyOf f t defF defT ck
  have hc3 : cacheKeyCount st3 < MAX_CACHE_ENTRIES := by
    have h1 : cacheKeyCount (setItem st testStorageKey "test") =
        cacheKeyCount st :=
      cacheKeyCount_setItem_not st testStorageKey "test"
        isLimitCacheKey_testStorageKey
    have h2 : cacheKeyCount st1 ≤ cacheKeyCount st := by
      rw [hst1]
      calc cacheKeyCount (removeItem (setItem st testStorageKey "test")
              testStorageKey)
          ≤ cacheKeyCount (setItem st testStorageKey "test") :=
            cacheKeyCount_removeItem_le _ _
        _ = cacheKeyCount st := h1
    have h3 : cacheKeyCount st2 ≤ cacheKeyCount st1 + 1 := by
      rw [hst2]
      exact cacheKeyCount_setItem_le st1 ck data
    have h4 : cacheKeyCount st3 = cacheKeyCount st2 := by
      rw [hst3]
      exact cacheKeyCount_setItem_not st2 ek _ (isLimitCacheKey_expiryKeyOf ck)
    unfold MAX_CACHE_ENTRIES
    omega
  have henf : enforceCacheLimit st3 = st3 := enforceCacheLimit_noop st3 hc3
  have hset : setTransactionCachedData noQuota now f t defF defT data st =
      st3 := by
    rw [setTransaction_noQuota_eq, ← hck, ← hek, ← hst1, ← hst2, ← hst3, henf]
  have hlek : lookupKey st3 ek =
      some (natToString (now + TRANSACTION_CACHE_DURATION)) := by
    rw [hst3]
    exact lookup_setItem_self st2 ek _
  have hldata : lookupKey st3 ck = some data := by
    rw [hst3, lookup_setItem_ne st2 ek ck _ hckek, hst2]
    exact lookup_setItem_self st1 ck data
  have hne : data ≠ "" := by
    intro h
    rw [h] at hparse
    exact Option.noConfusion ((rfl : parseJSON "" = none).symm.trans hparse)
  have hjson : (parseJSON data).isSome = true := by
    rw [hparse]
    rfl
  have hget : getCachedDataByKey now st3 ck = (some data, st3) :=
    getByKey_fresh now st3 ck data (now + TRANSACTION_CACHE_DURATION) hlek
      (by omega) hldata hne hjson
  unfold getTransactionCachedData
  rw [hset, ← hck, hget]

/-- Witness for C7: the JSON payload `"[1]"` round-trips through the
cache for the January 2024 range over the empty store. -/
theorem C7_cache_roundtrip_witness :
    (getTransactionCachedData 0 (some "2024-01-01") (some "2024-01-31")
      "" ""
      (setTransactionCachedData noQuota 0 (some "2024-01-01")
        (some "2024-01-31") "" "" "[1]" [])).1 = some "[1]" :=
  C7_cache_roundtrip [] 0 (some "2024-01-01") (some "2024-01-31") "" ""
    "[1]" (.arr [.num 1]) (by rfl) (by decide)

/-- C7 counterexample.  The payload `"not json"` is stored by
setTransactionCachedData, but the immediately following read validates
it with JSON.parse, discards it as corrupt and misses, so the round
trip does not return the payload. -/
theorem C7_counterexample :
    (getTransactionCachedData 0 (some "2024-01-01") (some "2024-01-31")
      "" ""
      (setTransactionCachedData noQuota 0 (some "2024-01-01")
        (some "2024-01-31") "" "" "not json" [])).1 = none ∧
    parseJSON "not json" = none := by
  refine ⟨by decide, rfl⟩

/-! ### C2: quota-exceeded handling on the write path -/

/-- C2 (code bug).  The quota-recovery path of setTransactionCachedData
is dead for the payload write: the inner try/catch around the two
`localStorage.setItem` calls logs and returns, so the outer catch that
runs clearExpiredCaches and retries once (the behaviour the claim — and
the sibling DEV-mode setCachedData — prescribe) is reachable only from
the tiny quota-probe write.  Concretely: under a policy that fails
writes longer than 4 characters while an expired expiry record is
present, the write leaves the store untouched — the expired record
(reading `"100"`, past at `now = 200`) is not evicted and no retry
happens — although one cleanup pass would have removed the record and
made the very same write succeed, as the last conjunct shows. -/
theorem C2_quota_abandons_without_retry :
    setTransactionCachedData
        (fun st _ v => decide (4 < v.length) &&
          (lookupKey st (expiryKeyHead ++ "v2_2023-01-31")).isSome)
        200 (some "2024-01-01") (some "2024-01-31") "" "" "[1, 2]"
        [(expiryKeyHead ++ "v2_2023-01-31", "100")] =
      [(expiryKeyHead ++ "v2_2023-01-31", "100")] ∧
    jsParseIntStr "100" = some 100 ∧ ((100 : Int) < 200) ∧
    clearExpiredCaches 200 [(expiryKeyHead ++ "v2_2023-01-31", "100")] =
      [] ∧
    lookupKey
      (setTransactionCachedData
        (fun st _ v => decide (4 < v.length) &&
          (lookupKey st (expiryKeyHead ++ "v2_2023-01-31")).isSome)
        200 (some "2024-01-01") (some "2024-01-31") "" "" "[1, 2]"
        (clearExpiredCaches 200
          [(expiryKeyHead ++ "v2_2023-01-31", "100")]))
      (getTransactionCacheKey (some "2024-01-01") (some "2024-01-31")
        "" "") = some "[1, 2]" := by
  refine ⟨by decide, by decide, by decide, by decide, by decide⟩

end ORX
